import Mathlib

/-!
Verification of the almora PEG matching engine.

This file shallowly embeds the core of the repository: the location/span
model (`src/parser_lib/types/location.rs`, `span.rs`), the parse-result
type (`parse_result.rs`, `parse_info.rs`, `parser_error.rs`), the
in-memory reader (`string_char_reader.rs`), the buffered chunked reader
(`file_char_reader.rs`) with its ring buffer (`utils/char_buffer`), and
the matcher combinator set (`lexer/*.rs`).

Matchers in the source are trait objects (`Rc<dyn MatchToken<R>>`); they
are embedded as plain functions of type `TestFn`.  A `TestFn` takes a
fuel budget (the source's repetition and until loops can genuinely
diverge, so the embedding returns `none` when the budget is exhausted),
a start location and a reader, and returns the three-way parse outcome
together with the possibly mutated reader.
-/

namespace Almora

/-- Location of a point in a source file (`types/location.rs`). -/
structure Location where
  line : Nat
  column : Nat
  index : Nat
deriving DecidableEq, Repr

/-- `Location::beginning` -/
def Location.beginning : Location := ⟨1, 1, 0⟩

/-- `Location::add_line` -/
def Location.addLine (l : Location) : Location :=
  ⟨l.line + 1, 1, l.index + 1⟩

/-- `Location::add_delta` -/
def Location.addDelta (l : Location) (deltaLines deltaColumns deltaIndex : Nat) : Location :=
  ⟨l.line + deltaLines, (if 0 < deltaLines then 1 else l.column) + deltaColumns,
    l.index + deltaIndex⟩

/-- `impl Add<usize> for Location` -/
def Location.add (l : Location) (nb : Nat) : Location :=
  ⟨l.line, l.column + nb, l.index + nb⟩

/-- Half-open range of locations (`types/span.rs`).  The second field is
named `end` in the source; `end` is reserved here, so it is `stop`. -/
structure Span where
  start : Location
  stop : Location
deriving DecidableEq, Repr

/-- Information about a successful parse (`types/parse_info.rs`). -/
structure ParseInfo where
  span : Span
  len : Nat
deriving DecidableEq, Repr

/-- `types/parser_error.rs` -/
inductive ParserError where
  | noLookBehind (pos : Nat)
  | lookAheadBufferOverflow (pos : Nat)
  | noGrammarDefined
deriving DecidableEq, Repr

deriving instance DecidableEq for Except

/-- `type ParseResult = Result<Option<ParseInfo>, ParserError>` -/
abbrev ParseResult := Except ParserError (Option ParseInfo)

/-- `CreateParseResult::new` -/
def ParseResult.new (span : Span) (len : Nat) : ParseResult :=
  .ok (some ⟨span, len⟩)

/-- `CreateParseResult::matches` -/
def ParseResult.matches (start stop : Location) : ParseResult :=
  .ok (some ⟨⟨start, stop⟩, stop.index - start.index⟩)

/-- `CreateParseResult::no_match` -/
def ParseResult.noMatch : ParseResult := .ok none

/-- `CreateParseResult::empty` -/
def ParseResult.empty (start : Location) : ParseResult :=
  .ok (some ⟨⟨start, start⟩, 0⟩)

/-- In-memory reader over a fully materialized string
(`char_reader/string_char_reader.rs`).  The source stores a `String` and
indexes it with `chars().nth(..)`, i.e. by char position; the embedding
stores the char list directly. -/
structure StringCharReader where
  string : List Char
  cursorIndex : Nat
deriving DecidableEq, Repr

/-- `StringCharReader::peek` -/
def StringCharReader.peek (r : StringCharReader) : Option Char :=
  r.string.get? r.cursorIndex

/-- `StringCharReader::peek_nth` -/
def StringCharReader.peekNth (r : StringCharReader) (n : Nat) : Option Char :=
  r.string.get? (r.cursorIndex + n)

/-- `StringCharReader::consume` -/
def StringCharReader.consume (r : StringCharReader) : Option Char × StringCharReader :=
  match r.peek with
  | none => (none, r)
  | some c => (some c, { r with cursorIndex := r.cursorIndex + 1 })

/-- `StringCharReader::consume_nth` -/
def StringCharReader.consumeNth (r : StringCharReader) (n : Nat) :
    Option Char × StringCharReader :=
  match r.peekNth n with
  | none => (none, r)
  | some c => (some c, { r with cursorIndex := r.cursorIndex + n + 1 })

/-- `StringCharReader::is_eof` -/
def StringCharReader.isEof (r : StringCharReader) : Bool :=
  (r.string.get? r.cursorIndex).isNone

/-- The UTF-8 byte count of a string, i.e. what `str::len()` returns in
the source (`self.value.len()` on a `&str` counts bytes, not chars). -/
def byteLen (value : List Char) : Nat :=
  (value.map Char.utf8Size).sum

/-- The comparison loop of `StringCharReader::match_str`: walk the input
suffix starting at the queried position (`peek_nth` at increasing
offsets) against the literal, one char of the literal at a time. -/
def strLoop : List Char → List Char → Bool
  | _, [] => true
  | [], _ :: _ => false
  | fc :: frest, c :: rest => if fc = c then strLoop frest rest else false

/-- `StringCharReader::match_str` (`impl MatchStr for StringCharReader`). -/
def StringCharReader.matchStr (r : StringCharReader) (pos : Nat) (s : List Char) :
    Except ParserError Bool :=
  if pos < r.cursorIndex then .error (.noLookBehind pos)
  else .ok (strLoop (r.string.drop pos) s)

/-- The counting loop of `StringCharReader::match_range`: walk the input
suffix starting at the queried position, stopping at the first
out-of-range char or once `max ≠ 0` matches have been counted. -/
def rangeLoop (start stop : Char) (max : Nat) : List Char → Nat → Nat
  | [], matched => matched
  | c :: rest, matched =>
    if c < start ∨ stop < c then matched
    else if max ≠ 0 ∧ max ≤ matched then matched
    else rangeLoop start stop max rest (matched + 1)

/-- `StringCharReader::match_range`. -/
def StringCharReader.matchRange (r : StringCharReader) (pos : Nat)
    (start stop : Char) (max : Nat) : Except ParserError Nat :=
  if pos < r.cursorIndex then .error (.noLookBehind pos)
  else .ok (rangeLoop start stop max (r.string.drop pos) 0)

/-- Modelled from the spec: `MatchStr::is_newline` is declared in
`types/match_str.rs` ("Returns true if the char is a newline") but no
implementation exists under `src/`; modelled for the string reader with
the same look-behind guard as the other `MatchStr` queries. -/
def StringCharReader.isNewline (r : StringCharReader) (pos : Nat) :
    Except ParserError Bool :=
  if pos < r.cursorIndex then .error (.noLookBehind pos)
  else .ok (match r.string.get? pos with
            | some c => c = '\n'
            | none => false)

/-- Modelled from the spec: `MatchStr::is_end_of_input` is declared in
`types/match_str.rs` ("Returns true if the char is the end of the
input") but no implementation exists under `src/`; modelled for the
string reader with the same look-behind guard as the other `MatchStr`
queries. -/
def StringCharReader.isEndOfInput (r : StringCharReader) (pos : Nat) :
    Except ParserError Bool :=
  if pos < r.cursorIndex then .error (.noLookBehind pos)
  else .ok (r.string.get? pos).isNone

/-- A matcher's `test` method (`trait MatchToken`), over the string
reader.  The first argument is the fuel budget for the `loop`s in
`RepetitionMatcher` and `UntilMatcher`; `none` means the budget was
exhausted (the source loops forever). -/
abbrev TestFn := Nat → Location → StringCharReader → Option (ParseResult × StringCharReader)

/-- The newline/column bookkeeping of `StrMatcher::new`: count
`delta_lines` and `delta_columns` of the literal once, at construction. -/
def strDeltas (value : List Char) : Nat × Nat :=
  value.foldl (fun d c => if c = '\n' then (d.1 + 1, 0) else (d.1, d.2 + 1)) (0, 0)

/-- `StrMatcher::test` (`lexer/str_matcher.rs`).  Note the span end is
advanced by `self.value.len()`, the literal's byte length. -/
def strTest (value : List Char) : TestFn := fun _ loc rdr =>
  match rdr.matchStr loc.index value with
  | .error e => some (.error e, rdr)
  | .ok true =>
    some (ParseResult.new
      ⟨loc, loc.addDelta (strDeltas value).1 (strDeltas value).2 (byteLen value)⟩
      (byteLen value), rdr)
  | .ok false => some (ParseResult.noMatch, rdr)

/-- `RangeMatcher::test` (`lexer/range_matcher.rs`). -/
def rangeTest (start stop : Char) (min max : Nat) : TestFn := fun _ loc rdr =>
  match rdr.matchRange loc.index start stop max with
  | .error e => some (.error e, rdr)
  | .ok nb =>
    if min ≤ nb then some (ParseResult.matches loc (loc.add nb), rdr)
    else some (ParseResult.noMatch, rdr)

/-- The child loop of `SequentialMatcher::test`. -/
def seqGo : List TestFn → Nat → Location → Location → StringCharReader →
    Option (ParseResult × StringCharReader)
  | [], _, start, endLoc, rdr => some (ParseResult.matches start endLoc, rdr)
  | f :: rest, fuel, start, endLoc, rdr =>
    match f fuel endLoc rdr with
    | none => none
    | some (.error e, rdr') => some (.error e, rdr')
    | some (.ok (some res), rdr') => seqGo rest fuel start res.span.stop rdr'
    | some (.ok none, rdr') => some (ParseResult.noMatch, rdr')

/-- `SequentialMatcher::test` (`lexer/sequential_matcher.rs`). -/
def sequentialTest (children : List TestFn) : TestFn := fun fuel loc rdr =>
  seqGo children fuel loc loc rdr

/-- The child loop of `ChoiceMatcher::test`. -/
def choiceGo : List TestFn → Nat → Location → StringCharReader →
    Option (ParseResult × StringCharReader)
  | [], _, _, rdr => some (ParseResult.noMatch, rdr)
  | f :: rest, fuel, loc, rdr =>
    match f fuel loc rdr with
    | none => none
    | some (.error e, rdr') => some (.error e, rdr')
    | some (.ok (some res), rdr') => some (ParseResult.matches loc res.span.stop, rdr')
    | some (.ok none, rdr') => choiceGo rest fuel loc rdr'

/-- `ChoiceMatcher::test` (`lexer/choice_matcher.rs`). -/
def choiceTest (children : List TestFn) : TestFn := fun fuel loc rdr =>
  choiceGo children fuel loc rdr

/-- `OptionalMatcher::test` (`lexer/optional_matcher.rs`).  The source's
`if let Ok(Some(res)) = ... else empty` turns an inner `Err` into an
empty match, keeping the inner test's reader mutations. -/
def optionalTest (child : TestFn) : TestFn := fun fuel loc rdr =>
  match child fuel loc rdr with
  | none => none
  | some (.ok (some res), rdr') => some (.ok (some res), rdr')
  | some (_, rdr') => some (ParseResult.empty loc, rdr')

/-- `NotMatcher::test` (`lexer/not_matcher.rs`). -/
def notTest (child : TestFn) : TestFn := fun fuel loc rdr =>
  match child fuel loc rdr with
  | none => none
  | some (.error e, rdr') => some (.error e, rdr')
  | some (.ok (some _), rdr') => some (ParseResult.noMatch, rdr')
  | some (.ok none, rdr') => some (ParseResult.empty loc, rdr')

/-- The `while let Ok(Some(res))` loop of `RepetitionMatcher::test`.  An
`Err` or `Ok(None)` from the child exits the loop (the child's reader
mutations persist). -/
def repGo (child : TestFn) (fuel : Nat) : Nat → Nat → Location → StringCharReader →
    Option (Nat × Location × StringCharReader)
  | 0, _, _, _ => none
  | budget + 1, count, endLoc, rdr =>
    match child fuel endLoc rdr with
    | none => none
    | some (.ok (some res), rdr') => repGo child fuel budget (count + 1) res.span.stop rdr'
    | some (_, rdr') => some (count, endLoc, rdr')

/-- `RepetitionMatcher::test` (`lexer/repetition_matcher.rs`). -/
def repetitionTest (child : TestFn) (min : Nat) : TestFn := fun fuel loc rdr =>
  match repGo child fuel fuel 0 loc rdr with
  | none => none
  | some (count, endLoc, rdr') =>
    some (if min ≤ count then ParseResult.matches loc endLoc else ParseResult.noMatch, rdr')

/-- `if count >= self.min { matches } else { no_match }` after the until
loop (`lexer/until_matcher.rs`). -/
def untilFinish (min : Nat) (loc : Location) (count : Nat) (endLoc : Location) : ParseResult :=
  if min ≤ count then ParseResult.matches loc endLoc else ParseResult.noMatch

/-- The `while let Ok(None)` loop of `UntilMatcher::test`.  In the
newline branch the source calls `end_loc.add_line()` and discards its
return value (`add_line` takes `&self` and returns a new `Location`),
so `end_loc` is left unchanged there. -/
def untilGo (child : TestFn) (fuel min : Nat) (loc : Location) :
    Nat → Nat → Location → StringCharReader → Option (ParseResult × StringCharReader)
  | 0, _, _, _ => none
  | budget + 1, count, endLoc, rdr =>
    match child fuel endLoc rdr with
    | none => none
    | some (.ok none, rdr') =>
      match rdr'.isEndOfInput endLoc.index with
      | .error e => some (.error e, rdr')
      | .ok true => some (untilFinish min loc count endLoc, rdr')
      | .ok false =>
        match rdr'.isNewline endLoc.index with
        | .error e => some (.error e, rdr')
        | .ok true => untilGo child fuel min loc budget (count + 1) endLoc rdr'
        | .ok false => untilGo child fuel min loc budget (count + 1) (endLoc.add 1) rdr'
    | some (_, rdr') => some (untilFinish min loc count endLoc, rdr')

/-- `UntilMatcher::test` (`lexer/until_matcher.rs`). -/
def untilTest (child : TestFn) (min : Nat) : TestFn := fun fuel loc rdr =>
  untilGo child fuel min loc fuel 0 loc rdr

/-- `TokenMatcher::test` (`lexer/token_matcher.rs`).  On a match the
source calls `reader.consume_nth(res.end().index() - 1)`; the
subtraction is on `usize` and underflows when the match end index is 0
(a panic in debug builds), while `Nat` subtraction truncates; the two
agree for all end indices ≥ 1. -/
def tokenTest (child : TestFn) : TestFn := fun fuel loc rdr =>
  match child fuel loc rdr with
  | none => none
  | some (.error e, rdr') => some (.error e, rdr')
  | some (.ok (some res), rdr') =>
    some (.ok (some res), (rdr'.consumeNth (res.span.stop.index - 1)).2)
  | some (.ok none, rdr') => some (ParseResult.empty loc, rdr')

/-- `utils/char_buffer/char_buffer_error.rs` / `ring_buffer_error.rs`
(`NotEnoughSpace` carrying the rejected element). -/
inductive CharBufferError where
  | notEnoughSpace (c : Char)
deriving DecidableEq, Repr

/-- Fixed-capacity ring buffer of chars (`utils/char_buffer/char_buffer.rs`;
`utils/ring_buffer/ring_buffer.rs` is a non-compiling draft of the same
modular-arithmetic algorithm).  The backing store is
`vec!['\x00'; capacity]`, so its length equals the capacity. -/
structure CharBuffer where
  buf : List Char
  readPos : Nat
  writePos : Nat
  size : Nat
deriving DecidableEq, Repr

/-- `CharBuffer::new` -/
def CharBuffer.new (capacity : Nat) : CharBuffer :=
  ⟨List.replicate capacity '\x00', 0, 0, 0⟩

/-- `CharBuffer::capacity` (the backing vector's capacity, which is its
length for `vec!['\x00'; capacity]`). -/
def CharBuffer.capacity (cb : CharBuffer) : Nat := cb.buf.length

/-- `CharBuffer::push`.  The pair mirrors `&mut self` plus the returned
`Result`: on `Err` the buffer is returned unchanged. -/
def CharBuffer.push (cb : CharBuffer) (c : Char) : Except CharBufferError Unit × CharBuffer :=
  if cb.size = cb.capacity then (.error (.notEnoughSpace c), cb)
  else
    (.ok (), { buf := cb.buf.set cb.writePos c
             , readPos := cb.readPos
             , writePos := if cb.writePos + 1 = cb.capacity then 0 else cb.writePos + 1
             , size := cb.size + 1 })

/-- `CharBuffer::pop`. -/
def CharBuffer.pop (cb : CharBuffer) : Option Char × CharBuffer :=
  if cb.size = 0 then (none, cb)
  else
    (some (cb.buf.getD cb.readPos '\x00'),
     { cb with readPos := if cb.readPos + 1 = cb.capacity then 0 else cb.readPos + 1
             , size := cb.size - 1 })

/-- `CharBuffer::peek`. -/
def CharBuffer.peek (cb : CharBuffer) : Option Char :=
  if cb.size = 0 then none
  else some (cb.buf.getD cb.readPos '\x00')

/-- `CharBuffer::peek_nth`. -/
def CharBuffer.peekNth (cb : CharBuffer) (n : Nat) : Option Char :=
  if cb.size = 0 then none
  else if cb.size ≤ n then none
  else some (cb.buf.getD ((cb.readPos + n) % cb.capacity) '\x00')

/-- Push a whole list, failing (`none`) if any push reports
`NotEnoughSpace`. -/
def CharBuffer.pushAll (cb : CharBuffer) : List Char → Option CharBuffer
  | [] => some cb
  | c :: rest =>
    match cb.push c with
    | (.ok _, cb') => CharBuffer.pushAll cb' rest
    | (.error _, _) => none

/-- Pop `n` times, collecting each pop's result. -/
def CharBuffer.popN (cb : CharBuffer) : Nat → List (Option Char) × CharBuffer
  | 0 => ([], cb)
  | n + 1 =>
    let p := cb.pop
    let q := CharBuffer.popN p.2 n
    (p.1 :: q.1, q.2)

/-- The reachable-state invariant of the ring buffer: the read cursor is
in bounds, the logical size fits the capacity, and the write cursor sits
`size` slots past the read cursor, modulo wraparound. -/
def CharBuffer.Wf (cb : CharBuffer) : Prop :=
  cb.readPos < cb.buf.length ∧ cb.size ≤ cb.buf.length ∧
    cb.writePos = (cb.readPos + cb.size) % cb.buf.length

/-- The logical FIFO contents of the ring buffer: `size` elements
starting at the read cursor, wrapping around. -/
def CharBuffer.contents (cb : CharBuffer) : List Char :=
  (List.range cb.size).map fun i => cb.buf.getD ((cb.readPos + i) % cb.buf.length) '\x00'

/-- The element-level effect of the refill loop of
`FileCharReader::load_chars`: push decoded chars one at a time.  The
byte-window UTF-8 decoding itself is a primitive outside the core (spec
§4.3); at the element level the loop pushes each decoded char in order. -/
def loadList (cb : CharBuffer) : List Char → CharBuffer
  | [] => cb
  | c :: rest => loadList (cb.push c).2 rest

/-- Buffered chunked reader (`char_reader/file_char_reader.rs`).  The
external byte source is modelled at the element level as the list of
chars not yet loaded into the buffer. -/
structure FileCharReader where
  file : List Char
  buffer : CharBuffer
  nbReadFromBuffer : Nat
  nbReadFromFile : Nat
deriving DecidableEq, Repr

/-- `FileCharReader::new` over given source contents. -/
def FileCharReader.new (content : List Char) (bufferSize : Nat) : FileCharReader :=
  ⟨content, CharBuffer.new bufferSize, 0, 0⟩

/-- `FileCharReader::load_chars`: refuse if the buffer lacks room for
`n` more elements, else load `min n remaining` chars from the source. -/
def FileCharReader.loadChars (r : FileCharReader) (n : Nat) : Nat × FileCharReader :=
  if r.buffer.capacity < r.buffer.size + n then (0, r)
  else
    (min n r.file.length,
     { file := r.file.drop (min n r.file.length)
     , buffer := loadList r.buffer (r.file.take (min n r.file.length))
     , nbReadFromBuffer := r.nbReadFromBuffer
     , nbReadFromFile := r.nbReadFromFile + min n r.file.length })

/-- `FileCharReader::load_until`. -/
def FileCharReader.loadUntil (r : FileCharReader) (index : Nat) : Bool × FileCharReader :=
  if r.nbReadFromFile ≤ index then
    let r' := (r.loadChars (index - r.nbReadFromFile + 1)).2
    if r'.nbReadFromFile ≤ index then (false, r') else (true, r')
  else (true, r)

/-- `FileCharReader::peek_nth` (`impl Stream<char>`). -/
def FileCharReader.peekNth (r : FileCharReader) (n : Nat) : Option Char × FileCharReader :=
  let r' := (r.loadUntil (r.nbReadFromBuffer + n)).2
  (r'.buffer.peekNth n, r')

/-- `FileCharReader::consume`. -/
def FileCharReader.consume (r : FileCharReader) : Option Char × FileCharReader :=
  let r₁ := (r.loadUntil r.nbReadFromBuffer).2
  let p := r₁.buffer.pop
  match p.1 with
  | some c => (some c, { r₁ with buffer := p.2, nbReadFromBuffer := r₁.nbReadFromBuffer + 1 })
  | none => (none, { r₁ with buffer := p.2 })

/-- The comparison loop of `FileCharReader::match_str`: `peek_nth` at
increasing offsets (possibly loading more chars) against the literal. -/
def FileCharReader.matchStrGo : List Char → Nat → FileCharReader →
    Except ParserError Bool × FileCharReader
  | [], _, r => (.ok true, r)
  | c :: rest, i, r =>
    match r.peekNth i with
    | (some fc, r') =>
      if fc = c then FileCharReader.matchStrGo rest (i + 1) r' else (.ok false, r')
    | (none, r') => (.ok false, r')

/-- `FileCharReader::match_str` (`impl MatchStr for FileCharReader`).
Note the overflow guard and error payload use the relative position
`pos - nb_read_from_buffer`, and `s.len()` is the literal's byte
length. -/
def FileCharReader.matchStr (r : FileCharReader) (pos : Nat) (s : List Char) :
    Except ParserError Bool × FileCharReader :=
  if pos < r.nbReadFromBuffer then (.error (.noLookBehind pos), r)
  else if r.buffer.capacity ≤ pos - r.nbReadFromBuffer + byteLen s then
    (.error (.lookAheadBufferOverflow (pos - r.nbReadFromBuffer + byteLen s)), r)
  else FileCharReader.matchStrGo s (pos - r.nbReadFromBuffer) r

/-- All alternatives in a prefix of a choice return `Ok(None)` at `loc`,
threading the reader through the successive child tests. -/
inductive SkipsAll : List TestFn → Nat → Location → StringCharReader → StringCharReader → Prop
  | nil (fuel : Nat) (loc : Location) (rdr : StringCharReader) : SkipsAll [] fuel loc rdr rdr
  | cons {f : TestFn} {fs : List TestFn} {fuel : Nat} {loc : Location}
      {rdr rdr' rdr'' : StringCharReader}
      (h : f fuel loc rdr = some (.ok none, rdr'))
      (hs : SkipsAll fs fuel loc rdr' rdr'') :
      SkipsAll (f :: fs) fuel loc rdr rdr''

/-! ## Helper lemmas -/

/-- One iteration of the until loop on the failing newline input makes
no progress: the terminator `"b"` does not match at index 0 of `"\nb"`,
the input is not at its end, the element there is a newline, and the
source discards `add_line`'s result, so the loop state repeats. -/
theorem untilGo_newline_stuck (fuel : Nat) : ∀ (budget count : Nat),
    untilGo (strTest ['b']) fuel 0 Location.beginning budget count
      Location.beginning ⟨['\n', 'b'], 0⟩ = none := by
  intro budget
  induction budget with
  | zero => intro count; rfl
  | succ b ih => intro count; exact ih (count + 1)

/-! ## Claim theorems -/

/-- C1 (counterexample): the claim says every combinator returns a child
matcher's reader error unchanged, but `OptionalMatcher::test` swallows
it: with the cursor at 1, testing the literal `"a"` at location index 0
yields `Error(NoLookBehind(0))`, yet the optional combinator wrapping it
returns `Matched` with an empty span instead of that error. -/
theorem c1_counterexample :
    strTest ['a'] 5 Location.beginning ⟨['a', 'b'], 1⟩
      = some (.error (.noLookBehind 0), ⟨['a', 'b'], 1⟩)
    ∧ optionalTest (strTest ['a']) 5 Location.beginning ⟨['a', 'b'], 1⟩
      = some (.ok (some ⟨⟨Location.beginning, Location.beginning⟩, 0⟩), ⟨['a', 'b'], 1⟩) := by
  decide

/-- C1 (amended): when a child matcher's test returns a reader error,
sequence, choice, not and token return that same error unchanged; until
likewise returns the errors of its own reader queries unchanged, from
any iteration of its loop (shown for `is_end_of_input`, the first query
each iteration makes; `is_newline` is reached at the same position only
after `is_end_of_input` answered without error); but optional returns an
empty match (keeping the child's reader state), and repetition and until
exit their loop on a child test error and return match/no-match from the
count accumulated so far (here zero, the error arising on the first
iteration). -/
theorem c1_error_propagation :
    (∀ (child : TestFn) (rest : List TestFn) (minr fuel : Nat)
        (loc : Location) (rdr rdr' : StringCharReader) (e : ParserError),
      child fuel loc rdr = some (.error e, rdr') →
        sequentialTest (child :: rest) fuel loc rdr = some (.error e, rdr')
        ∧ choiceTest (child :: rest) fuel loc rdr = some (.error e, rdr')
        ∧ notTest child fuel loc rdr = some (.error e, rdr')
        ∧ tokenTest child fuel loc rdr = some (.error e, rdr')
        ∧ optionalTest child fuel loc rdr = some (ParseResult.empty loc, rdr')
        ∧ (1 ≤ fuel →
            repetitionTest child minr fuel loc rdr
              = some (if minr = 0 then ParseResult.matches loc loc else ParseResult.noMatch,
                  rdr'))
        ∧ (1 ≤ fuel →
            untilTest child minr fuel loc rdr
              = some (if minr = 0 then ParseResult.matches loc loc else ParseResult.noMatch,
                  rdr')))
    ∧ (∀ (child : TestFn) (minr fuel budget count : Nat) (loc endLoc : Location)
        (rdr rdr' : StringCharReader) (e : ParserError),
      child fuel endLoc rdr = some (.ok none, rdr') →
      rdr'.isEndOfInput endLoc.index = .error e →
        untilGo child fuel minr loc (budget + 1) count endLoc rdr = some (.error e, rdr'))
    ∧ (∀ (child : TestFn) (minr fuel : Nat) (loc : Location)
        (rdr rdr' : StringCharReader) (e : ParserError),
      1 ≤ fuel →
      child fuel loc rdr = some (.ok none, rdr') →
      rdr'.isEndOfInput loc.index = .error e →
        untilTest child minr fuel loc rdr = some (.error e, rdr')) := by
  refine ⟨?_, ?_, ?_⟩
  · intro child rest minr fuel loc rdr rdr' e h
    refine ⟨?_, ?_, ?_, ?_, ?_, ?_, ?_⟩
    · simp [sequentialTest, seqGo, h]
    · simp [choiceTest, choiceGo, h]
    · simp [notTest, h]
    · simp [tokenTest, h]
    · simp [optionalTest, h]
    · intro hf
      obtain ⟨f, rfl⟩ : ∃ f, fuel = f + 1 := ⟨fuel - 1, by omega⟩
      simp [repetitionTest, repGo, h, Nat.le_zero]
    · intro hf
      obtain ⟨f, rfl⟩ : ∃ f, fuel = f + 1 := ⟨fuel - 1, by omega⟩
      simp [untilTest, untilGo, h, untilFinish, Nat.le_zero]
  · intro child minr fuel budget count loc endLoc rdr rdr' e h hq
    simp [untilGo, h, hq]
  · intro child minr fuel loc rdr rdr' e hf h hq
    obtain ⟨f, rfl⟩ : ∃ f, fuel = f + 1 := ⟨fuel - 1, by omega⟩
    simp [untilTest, untilGo, h, hq]

/-- C1 (witness): concrete instances of the amended statement — the
literal matcher `"a"` erroring under a cursor already at 1 aborts a
sequence with that error while until turns it into NoMatch; and an
`is_end_of_input` error inside until's loop (an empty choice as the
never-matching terminator, the scan location behind the cursor) aborts
the whole until test with that same error. -/
theorem c1_error_propagation_witness :
    sequentialTest [strTest ['a']] 5 Location.beginning ⟨['a', 'b'], 1⟩
      = some (.error (.noLookBehind 0), ⟨['a', 'b'], 1⟩)
    ∧ untilTest (strTest ['a']) 1 5 Location.beginning ⟨['a', 'b'], 1⟩
      = some (ParseResult.noMatch, ⟨['a', 'b'], 1⟩)
    ∧ untilTest (choiceTest []) 1 5 Location.beginning ⟨['a', 'b'], 1⟩
      = some (.error (.noLookBehind 0), ⟨['a', 'b'], 1⟩) := by
  have h := c1_error_propagation.1 (strTest ['a']) [] 1 5 Location.beginning
    ⟨['a', 'b'], 1⟩ ⟨['a', 'b'], 1⟩ (.noLookBehind 0) (by decide)
  have h3 := c1_error_propagation.2.2 (choiceTest []) 1 5 Location.beginning
    ⟨['a', 'b'], 1⟩ ⟨['a', 'b'], 1⟩ (.noLookBehind 0) (by decide) (by decide) (by decide)
  refine ⟨h.1, ?_, h3⟩
  have h7 := h.2.2.2.2.2.2 (by decide)
  simpa using h7

/-- C3 (code evaluated at the failing input): the literal matcher over
the one-char literal `"é"` matches at the start of `"éx"`, but the span
it reports ends at index 2 — `StrMatcher::test` advances the index by
`self.value.len()`, the literal's UTF-8 byte length — while the literal
is 1 element long, so `end.index - start.index ≠ length(literal)`. -/
theorem c3_literal_byte_length_bug :
    strTest ['é'] 5 Location.beginning ⟨['é', 'x'], 0⟩
      = some (.ok (some ⟨⟨Location.beginning, ⟨1, 2, 2⟩⟩, 2⟩), ⟨['é', 'x'], 0⟩)
    ∧ (['é'] : List Char).length = 1
    ∧ (2 : Nat) ≠ 1 := by
  decide

/-- C5 (counterexample): the claim says the column becomes
`delta_columns` when `delta_lines > 0`, but `Location::add_delta` resets
the column to 1 and then adds `delta_columns`: from the beginning,
`add_delta(1, 5, 6)` yields column 6, not 5. -/
theorem c5_counterexample :
    ((Location.beginning).addDelta 1 5 6).column = 6
    ∧ ((Location.beginning).addDelta 1 5 6).column ≠ 5 := by
  decide

/-- C5 (amended): `add_delta` is a pure total function returning index
increased by `delta_index`, line increased by `delta_lines`, and column
equal to `1 + delta_columns` when `delta_lines > 0`, or to the old
column plus `delta_columns` when `delta_lines = 0`. -/
theorem c5_add_delta_characterization (loc : Location) (dl dc di : Nat) :
    (loc.addDelta dl dc di).index = loc.index + di
    ∧ (loc.addDelta dl dc di).line = loc.line + dl
    ∧ (0 < dl → (loc.addDelta dl dc di).column = 1 + dc)
    ∧ (dl = 0 → (loc.addDelta dl dc di).column = loc.column + dc) := by
  refine ⟨rfl, rfl, fun h => ?_, fun h => ?_⟩ <;> simp [Location.addDelta, h]

/-- C5 (witness): the characterization applied at concrete deltas. -/
theorem c5_add_delta_characterization_witness :
    ((Location.beginning).addDelta 1 5 6).column = 1 + 5
    ∧ ((Location.beginning).addDelta 0 5 6).column = 1 + 5 := by
  refine ⟨(c5_add_delta_characterization Location.beginning 1 5 6).2.2.1 (by decide), ?_⟩
  have h := (c5_add_delta_characterization Location.beginning 0 5 6).2.2.2 rfl
  simpa using h

/-- C6 (code evaluated at the failing input): with terminator `"b"` and
`min = 0` over the input `"\nb"`, the until matcher should count the
newline, advance to line 2 and then stop when `"b"` matches at index 1;
instead the source calls `end_loc.add_line()` and discards its result,
so the scan location never advances past the newline and the test loops
forever — for every fuel budget the embedding reports non-termination. -/
theorem c6_until_newline_divergence (fuel : Nat) :
    untilTest (strTest ['b']) 0 fuel Location.beginning ⟨['\n', 'b'], 0⟩ = none :=
  untilGo_newline_stuck fuel fuel 0

/-- C8 (code evaluated at the failing input): two successive token tests
over `"aaa"` with inner literal `"a"`.  The first (cursor 0) advances
the cursor to its match end 1.  The second matches the span
`[1, 2)`, but `TokenMatcher::test` calls
`consume_nth(res.end().index() - 1)` — a count relative to the cursor —
so the cursor lands at 3, not at the match end 2. -/
theorem c8_token_consume_overshoot :
    tokenTest (strTest ['a']) 5 Location.beginning ⟨['a', 'a', 'a'], 0⟩
      = some (.ok (some ⟨⟨Location.beginning, ⟨1, 2, 1⟩⟩, 1⟩), ⟨['a', 'a', 'a'], 1⟩)
    ∧ tokenTest (strTest ['a']) 5 ⟨1, 2, 1⟩ ⟨['a', 'a', 'a'], 1⟩
      = some (.ok (some ⟨⟨⟨1, 2, 1⟩, ⟨1, 3, 2⟩⟩, 1⟩), ⟨['a', 'a', 'a'], 3⟩)
    ∧ (3 : Nat) ≠ 2 := by
  decide

/-- C10: for the in-memory reader, `match_str` and `match_range` return
an error iff the queried position is strictly before the cursor, that
error is `NoLookBehind(pos)`, and `LookAheadBufferOverflow` is never
returned — lookahead is unbounded for in-memory inputs. -/
theorem c10_string_reader_errors (r : StringCharReader) (pos : Nat) (s : List Char)
    (a b : Char) (max : Nat) :
    (∀ e, r.matchStr pos s = .error e ↔ pos < r.cursorIndex ∧ e = .noLookBehind pos)
    ∧ (∀ e, r.matchRange pos a b max = .error e ↔ pos < r.cursorIndex ∧ e = .noLookBehind pos) := by
  constructor <;> intro e <;>
    simp only [StringCharReader.matchStr, StringCharReader.matchRange] <;>
    split <;> simp_all [eq_comm]

/-- C10 (witness): with the cursor at 1 both queries at position 0
return `NoLookBehind(0)`, and at position 1 neither errors. -/
theorem c10_string_reader_errors_witness :
    StringCharReader.matchStr ⟨['a', 'b'], 1⟩ 0 ['a'] = .error (.noLookBehind 0)
    ∧ StringCharReader.matchRange ⟨['a', 'b'], 1⟩ 0 'a' 'z' 0 = .error (.noLookBehind 0) := by
  refine ⟨?_, ?_⟩
  · exact ((c10_string_reader_errors ⟨['a', 'b'], 1⟩ 0 ['a'] 'a' 'z' 0).1
      (.noLookBehind 0)).mpr ⟨by decide, rfl⟩
  · exact ((c10_string_reader_errors ⟨['a', 'b'], 1⟩ 0 ['a'] 'a' 'z' 0).2
      (.noLookBehind 0)).mpr ⟨by decide, rfl⟩

/-- Skipped alternatives: when every matcher in a prefix of a choice
returns `Ok(None)`, the choice behaves as the choice of the remaining
alternatives, from the reader state threaded through the prefix. -/
theorem choiceGo_skips (l : List TestFn) {pre : List TestFn} {fuel : Nat} {loc : Location}
    {rdr rdr₁ : StringCharReader} (hpre : SkipsAll pre fuel loc rdr rdr₁) :
    choiceGo (pre ++ l) fuel loc rdr = choiceGo l fuel loc rdr₁ := by
  induction hpre with
  | nil fuel loc rdr => rfl
  | cons h hs ih => simp only [List.cons_append, choiceGo, h]; exact ih

/-- C2: ordered choice.  If every alternative before `c` returns
`Ok(None)` and `c` matches with info `res` (whose span starts at the
test location, as every matcher's does), then the choice returns `res`'s
span — whatever alternatives follow `c`, so alternatives after the first
match are never consulted, even if one of them would match a longer
span. -/
theorem c2_choice_ordered (pre : List TestFn) (c : TestFn) (rest : List TestFn)
    (fuel : Nat) (loc : Location) (rdr rdr₁ rdr₂ : StringCharReader) (res : ParseInfo)
    (hpre : SkipsAll pre fuel loc rdr rdr₁)
    (hc : c fuel loc rdr₁ = some (.ok (some res), rdr₂))
    (hstart : res.span.start = loc) :
    choiceTest (pre ++ c :: rest) fuel loc rdr
      = some (.ok (some ⟨res.span, res.span.stop.index - res.span.start.index⟩), rdr₂) := by
  show choiceGo (pre ++ c :: rest) fuel loc rdr = _
  rw [choiceGo_skips (c :: rest) hpre]
  simp only [choiceGo, hc]
  obtain ⟨⟨s1, s2⟩, len⟩ := res
  simp only at hstart
  subst hstart
  rfl

/-- C2 (witness): the spec's own scenario — `Choice(["hey ", "world"])`
over `"hey world"` returns the span of `"hey "` (4 chars), not that of
the longer-matching later alternative. -/
theorem c2_choice_ordered_witness :
    choiceTest [strTest ("hey ".toList), strTest ("world".toList)] 5 Location.beginning
      ⟨("hey world".toList), 0⟩
      = some (.ok (some ⟨⟨Location.beginning, ⟨1, 5, 4⟩⟩, 4⟩), ⟨("hey world".toList), 0⟩) := by
  have h := c2_choice_ordered [] (strTest ("hey ".toList)) [strTest ("world".toList)]
    5 Location.beginning ⟨("hey world".toList), 0⟩ ⟨("hey world".toList), 0⟩
    ⟨("hey world".toList), 0⟩ ⟨⟨Location.beginning, ⟨1, 5, 4⟩⟩, 4⟩
    (SkipsAll.nil 5 Location.beginning ⟨("hey world".toList), 0⟩) (by decide) rfl
  simpa using h

/-- The counting loop never returns less than its accumulator. -/
theorem rangeLoop_acc_le (a b : Char) (max : Nat) :
    ∀ (l : List Char) (m : Nat), m ≤ rangeLoop a b max l m := by
  intro l
  induction l with
  | nil => intro m; simp [rangeLoop]
  | cons c rest ih =>
    intro m
    simp only [rangeLoop]
    split
    · exact le_refl m
    · split
      · exact le_refl m
      · exact le_trans (Nat.le_succ m) (ih (m + 1))

/-- With no bound, the counting loop just adds to its accumulator. -/
theorem rangeLoop_zero_acc (a b : Char) : ∀ (l : List Char) (m : Nat),
    rangeLoop a b 0 l m = m + rangeLoop a b 0 l 0 := by
  intro l
  induction l with
  | nil => intro m; simp [rangeLoop]
  | cons c rest ih =>
    intro m
    by_cases hout : c < a ∨ b < c
    · simp [rangeLoop, hout]
    · simp only [rangeLoop, if_neg hout, ne_eq, not_true_eq_false, false_and, if_false]
      rw [ih (m + 1), ih 1]
      omega

/-- With a nonzero bound, the counting loop computes the unbounded count
capped at the bound. -/
theorem rangeLoop_bounded (a b : Char) (max : Nat) (hmax : max ≠ 0) :
    ∀ (l : List Char) (m : Nat), m ≤ max →
    rangeLoop a b max l m = min (rangeLoop a b 0 l m) max := by
  intro l
  induction l with
  | nil => intro m hm; simp [rangeLoop]; omega
  | cons c rest ih =>
    intro m hm
    by_cases hout : c < a ∨ b < c
    · simp [rangeLoop, hout]; omega
    · have hr : rangeLoop a b 0 (c :: rest) m = rangeLoop a b 0 rest (m + 1) := by
        simp [rangeLoop, hout]
      by_cases hstop : max ≤ m
      · have h1 : m + 1 ≤ rangeLoop a b 0 rest (m + 1) := rangeLoop_acc_le a b 0 rest (m + 1)
        simp only [rangeLoop, if_neg hout, if_pos (show max ≠ 0 ∧ max ≤ m from ⟨hmax, hstop⟩)]
        rw [if_neg (show ¬ ((0 : Nat) ≠ 0 ∧ 0 ≤ m) by simp)]
        omega
      · have hl : rangeLoop a b max (c :: rest) m = rangeLoop a b max rest (m + 1) := by
          simp [rangeLoop, hout, hstop]
        rw [hl, hr, ih (m + 1) (by omega)]

/-- C7 (counterexample): the claim says a range matcher returns NoMatch
iff the contiguous in-range count is `< min`, but with `min = 3`,
`max = 2` over `"aaa"` the contiguous `[a-z]` count is 3 (not `< 3`),
yet the matcher returns NoMatch, because the counting is capped at
`max` before the `min` comparison. -/
theorem c7_counterexample :
    rangeTest 'a' 'z' 3 2 5 Location.beginning ⟨['a', 'a', 'a'], 0⟩
      = some (ParseResult.noMatch, ⟨['a', 'a', 'a'], 0⟩)
    ∧ StringCharReader.matchRange ⟨['a', 'a', 'a'], 0⟩ 0 'a' 'z' 0 = .ok 3
    ∧ ¬ (3 < 3) := by
  decide

/-- C7 (amended): a successful range match reports a count `k` with
`min ≤ k` and (`max = 0` or `k ≤ max`); when `max = 0` or `min ≤ max`
the matcher returns NoMatch iff the contiguous in-range count at the
start location is `< min`; when `0 < max < min` it always returns
NoMatch.  Here `k` is the contiguous in-range count, i.e. the reader's
unbounded `match_range` answer. -/
theorem c7_range_bounds (a b : Char) (minr maxr fuel : Nat) (loc : Location)
    (rdr : StringCharReader) (k : Nat)
    (hcur : rdr.cursorIndex ≤ loc.index)
    (hk : rdr.matchRange loc.index a b 0 = .ok k) :
    (∀ res rdr', rangeTest a b minr maxr fuel loc rdr = some (.ok (some res), rdr')
        → minr ≤ res.len ∧ (maxr = 0 ∨ res.len ≤ maxr))
    ∧ ((maxr = 0 ∨ minr ≤ maxr) →
        (rangeTest a b minr maxr fuel loc rdr = some (ParseResult.noMatch, rdr) ↔ k < minr))
    ∧ (maxr ≠ 0 → maxr < minr →
        rangeTest a b minr maxr fuel loc rdr = some (ParseResult.noMatch, rdr)) := by
  have hnl : ¬ loc.index < rdr.cursorIndex := by omega
  have hk' : rangeLoop a b 0 (rdr.string.drop loc.index) 0 = k := by
    simpa [StringCharReader.matchRange, hnl] using hk
  have hmr : rdr.matchRange loc.index a b maxr
      = .ok (rangeLoop a b maxr (rdr.string.drop loc.index) 0) := by
    simp [StringCharReader.matchRange, hnl]
  have hnbk : maxr ≠ 0 → rangeLoop a b maxr (rdr.string.drop loc.index) 0 = min k maxr := by
    intro h
    rw [rangeLoop_bounded a b maxr h _ 0 (by omega), hk']
  have hnbk0 : maxr = 0 → rangeLoop a b maxr (rdr.string.drop loc.index) 0 = k := by
    intro h; rw [h, hk']
  have hle : rangeLoop a b maxr (rdr.string.drop loc.index) 0 ≤ k := by
    rcases Nat.eq_zero_or_pos maxr with h0 | h0
    · rw [hnbk0 h0]
    · rw [hnbk (by omega)]
      omega
  refine ⟨?_, ?_, ?_⟩
  · intro res rdr' hres
    simp only [rangeTest, hmr] at hres
    by_cases hmin : minr ≤ rangeLoop a b maxr (rdr.string.drop loc.index) 0
    · rw [if_pos hmin] at hres
      simp only [ParseResult.matches, Option.some.injEq, Prod.mk.injEq, Except.ok.injEq] at hres
      obtain ⟨h1, h2⟩ := hres
      have hlen : res.len = rangeLoop a b maxr (rdr.string.drop loc.index) 0 := by
        rw [← h1]
        simp [Location.add]
      constructor
      · omega
      · rcases Nat.eq_zero_or_pos maxr with h0 | h0
        · exact Or.inl h0
        · have := hnbk (by omega); right; omega
    · rw [if_neg hmin] at hres
      simp [ParseResult.noMatch] at hres
  · intro hcase
    simp only [rangeTest, hmr]
    by_cases hmin : minr ≤ rangeLoop a b maxr (rdr.string.drop loc.index) 0
    · rw [if_pos hmin]
      constructor
      · intro hres
        exfalso
        simp [ParseResult.matches, ParseResult.noMatch] at hres
      · intro hklt
        exfalso
        omega
    · rw [if_neg hmin]
      constructor
      · intro _
        rcases hcase with h0 | h0
        · have := hnbk0 h0; omega
        · rcases Nat.eq_zero_or_pos maxr with hz | hz
          · have := hnbk0 hz; omega
          · have := hnbk (by omega); omega
      · intro _; rfl
  · intro hmx hlt
    have h1 := hnbk hmx
    simp only [rangeTest, hmr, if_neg (show ¬ minr ≤ rangeLoop a b maxr (rdr.string.drop loc.index) 0 by omega)]

/-- C7 (witness): the amended statement at `[a-z]`, `min = 1`,
`max = 0` over `"a1"`: the success at the beginning reports a count
within the bounds. -/
theorem c7_range_bounds_witness :
    (1 ≤ (1 : Nat)) ∧ ((0 : Nat) = 0 ∨ (1 : Nat) ≤ 0) := by
  have h := (c7_range_bounds 'a' 'z' 1 0 5 Location.beginning ⟨['a', '1'], 0⟩ 1
    (by decide) (by decide)).1 ⟨⟨Location.beginning, ⟨1, 2, 1⟩⟩, 1⟩ ⟨['a', '1'], 0⟩ (by decide)
  exact h

/-- The comparison loop of the chunked reader's `match_str` never
produces an error: it only compares peeked chars, answering `false` at a
mismatch or at end of input. -/
theorem fileMatchStrGo_ok (s : List Char) : ∀ (i : Nat) (r : FileCharReader),
    ∃ b r', FileCharReader.matchStrGo s i r = (.ok b, r') := by
  induction s with
  | nil => intro i r; exact ⟨true, r, rfl⟩
  | cons c rest ih =>
    intro i r
    simp only [FileCharReader.matchStrGo]
    rcases h : r.peekNth i with ⟨oc, r'⟩
    rcases oc with _ | fc
    · exact ⟨false, r', rfl⟩
    · by_cases hc : fc = c
      · simpa [hc] using ih (i + 1) r'
      · exact ⟨false, r', by simp [hc]⟩

/-- C4 (counterexample): the claim says the overflow error carries
`pos + len(s)`.  After consuming two chars of `"abcde"` through a
capacity-3 buffered reader (low-water mark 2), `match_str(3, "ab")`
fails with `LookAheadBufferOverflow(3)` — the code's payload is the
relative `pos - low_water_mark + len(s) = 3`, not `pos + len(s) = 5`. -/
theorem c4_counterexample :
    ((((FileCharReader.new ['a', 'b', 'c', 'd', 'e'] 3).consume.2).consume.2).matchStr
        3 ['a', 'b']).1
      = .error (.lookAheadBufferOverflow 3)
    ∧ (((FileCharReader.new ['a', 'b', 'c', 'd', 'e'] 3).consume.2).consume.2).nbReadFromBuffer
        = 2
    ∧ 3 + byteLen ['a', 'b'] = 5
    ∧ (3 : Nat) ≠ 5 := by
  decide

/-- C4 (amended): for the buffered chunked reader, `match_str(pos, s)`
fails with `NoLookBehind(pos)` iff `pos` is strictly below the low-water
mark `nb_read_from_buffer`, and fails with `LookAheadBufferOverflow`
iff `pos` is at or above the low-water mark and
`pos - low_water_mark + len(s) ≥ capacity`, carrying the relative value
`pos - low_water_mark + len(s)` (`len(s)` being the literal's byte
length); no other error is possible. -/
theorem c4_file_match_str_errors (r : FileCharReader) (pos : Nat) (s : List Char) :
    ((r.matchStr pos s).1 = .error (.noLookBehind pos) ↔ pos < r.nbReadFromBuffer)
    ∧ (∀ q, (r.matchStr pos s).1 = .error (.lookAheadBufferOverflow q)
        ↔ r.nbReadFromBuffer ≤ pos
          ∧ r.buffer.capacity ≤ pos - r.nbReadFromBuffer + byteLen s
          ∧ q = pos - r.nbReadFromBuffer + byteLen s) := by
  unfold FileCharReader.matchStr
  by_cases h1 : pos < r.nbReadFromBuffer
  · simp [h1]
  · by_cases h2 : r.buffer.capacity ≤ pos - r.nbReadFromBuffer + byteLen s
    · simp [h1, h2, eq_comm]
      omega
    · obtain ⟨b, r', hgo⟩ := fileMatchStrGo_ok s (pos - r.nbReadFromBuffer) r
      simp [h1, h2, hgo]

/-- C4 (witness): the amended characterization applied at the concrete
reader of the counterexample, in both directions. -/
theorem c4_file_match_str_errors_witness :
    ((((FileCharReader.new ['a', 'b', 'c', 'd', 'e'] 3).consume.2).consume.2).matchStr
        3 ['a', 'b']).1
      = .error (.lookAheadBufferOverflow 3) := by
  exact ((c4_file_match_str_errors
    (((FileCharReader.new ['a', 'b', 'c', 'd', 'e'] 3).consume.2).consume.2) 3
    ['a', 'b']).2 3).mpr ⟨by decide, by decide, by decide⟩

/-- Two offsets inside a window shorter than the modulus land on
distinct slots. -/
theorem mod_ne_of_window (r i j L : Nat) (hij : i < j) (hjL : j < L) :
    (r + i) % L ≠ (r + j) % L := by
  intro h
  have hdvd : L ∣ (r + j) - (r + i) :=
    (Nat.modEq_iff_dvd' (by omega : r + i ≤ r + j)).mp h
  have : L ≤ (r + j) - (r + i) := Nat.le_of_dvd (by omega) hdvd
  omega

/-- The source's increment-and-wrap of a cursor is addition modulo the
capacity. -/
theorem succ_wrap (w L : Nat) (hw : w < L) :
    (if w + 1 = L then 0 else w + 1) = (w + 1) % L := by
  by_cases h : w + 1 = L
  · rw [if_pos h, h, Nat.mod_self]
  · rw [if_neg h, Nat.mod_eq_of_lt (by omega)]

theorem getD_set_self (l : List Char) (i : Nat) (c d : Char) (h : i < l.length) :
    (l.set i c).getD i d = c := by
  rw [List.getD_eq_getElem?_getD, List.getElem?_set_eq_of_lt c h]
  rfl

theorem getD_set_ne (l : List Char) {i j : Nat} (c d : Char) (h : i ≠ j) :
    (l.set i c).getD j d = l.getD j d := by
  rw [List.getD_eq_getElem?_getD, List.getElem?_set_ne h, ← List.getD_eq_getElem?_getD]

theorem CharBuffer.contents_length (cb : CharBuffer) : cb.contents.length = cb.size := by
  simp [CharBuffer.contents]

theorem CharBuffer.contents_eq_nil (cb : CharBuffer) (h : cb.size = 0) : cb.contents = [] := by
  simp [CharBuffer.contents, h]

/-- A non-full push succeeds and appends the element to the FIFO
contents, preserving the invariant. -/
theorem CharBuffer.push_spec (cb : CharBuffer) (c : Char) (hwf : cb.Wf)
    (hlt : cb.size < cb.buf.length) :
    (cb.push c).1 = .ok () ∧ (cb.push c).2.Wf ∧ (cb.push c).2.size = cb.size + 1
    ∧ (cb.push c).2.buf.length = cb.buf.length
    ∧ (cb.push c).2.contents = cb.contents ++ [c] := by
  obtain ⟨hr, hs, hw⟩ := hwf
  have hL : 0 < cb.buf.length := by omega
  have hne : ¬ cb.size = cb.capacity := by
    simp only [CharBuffer.capacity]
    omega
  have hwlt : cb.writePos < cb.buf.length := by
    rw [hw]
    exact Nat.mod_lt _ hL
  have hpush : cb.push c
      = (.ok (), { buf := cb.buf.set cb.writePos c
                 , readPos := cb.readPos
                 , writePos := if cb.writePos + 1 = cb.capacity then 0 else cb.writePos + 1
                 , size := cb.size + 1 }) := by
    simp only [CharBuffer.push, if_neg hne]
  rw [hpush]
  refine ⟨rfl, ⟨?_, ?_, ?_⟩, rfl, List.length_set cb.buf _ c, ?_⟩
  · simpa [List.length_set] using hr
  · simp only [List.length_set]
    omega
  · simp only [CharBuffer.capacity, List.length_set]
    rw [hw, succ_wrap _ _ (Nat.mod_lt _ hL), Nat.mod_add_mod]
    congr 1
  · simp only [CharBuffer.contents, List.length_set, List.range_succ, List.map_append,
      List.map_cons, List.map_nil]
    congr 1
    · apply List.map_congr_left
      intro i hi
      have hilt : i < cb.size := List.mem_range.mp hi
      apply getD_set_ne
      rw [hw]
      exact (mod_ne_of_window cb.readPos i cb.size cb.buf.length hilt (by omega)).symm
    · rw [hw]
      rw [getD_set_self cb.buf _ c _ (Nat.mod_lt _ hL)]

/-- A non-empty pop returns the FIFO head and keeps the invariant; the
old contents are the returned element followed by the new contents. -/
theorem CharBuffer.pop_spec (cb : CharBuffer) (hwf : cb.Wf) (hpos : 0 < cb.size) :
    (cb.pop).1 = some (cb.buf.getD cb.readPos '\x00')
    ∧ (cb.pop).2.Wf ∧ (cb.pop).2.size = cb.size - 1
    ∧ (cb.pop).2.buf = cb.buf
    ∧ cb.contents = cb.buf.getD cb.readPos '\x00' :: (cb.pop).2.contents := by
  obtain ⟨hr, hs, hw⟩ := hwf
  have hL : 0 < cb.buf.length := by omega
  have hne : ¬ cb.size = 0 := by omega
  have hpop : cb.pop
      = (some (cb.buf.getD cb.readPos '\x00'),
         { cb with readPos := if cb.readPos + 1 = cb.capacity then 0 else cb.readPos + 1
                 , size := cb.size - 1 }) := by
    simp only [CharBuffer.pop, if_neg hne]
  rw [hpop]
  have hrp : (if cb.readPos + 1 = cb.buf.length then 0 else cb.readPos + 1)
      = (cb.readPos + 1) % cb.buf.length := succ_wrap cb.readPos cb.buf.length hr
  refine ⟨rfl, ⟨?_, ?_, ?_⟩, rfl, rfl, ?_⟩
  · simp only [CharBuffer.capacity, hrp]
    exact Nat.mod_lt _ hL
  · simp only
    omega
  · simp only [CharBuffer.capacity, hrp, hw, Nat.mod_add_mod]
    congr 1
    omega
  · simp only [CharBuffer.contents, CharBuffer.capacity, hrp]
    obtain ⟨s, hsz⟩ : ∃ s, cb.size = s + 1 := ⟨cb.size - 1, by omega⟩
    rw [hsz]
    simp only [Nat.add_sub_cancel, List.range_succ_eq_map, List.map_cons, List.map_map]
    congr 1
    · rw [Nat.add_zero, Nat.mod_eq_of_lt hr]
    · apply List.map_congr_left
      intro i hi
      simp only [Function.comp_apply, Nat.mod_add_mod]
      congr 2
      omega

/-- Pushing a whole list into a buffer with room for it succeeds and
appends it to the FIFO contents. -/
theorem CharBuffer.pushAll_spec : ∀ (cs : List Char) (cb : CharBuffer), cb.Wf →
    cb.size + cs.length ≤ cb.buf.length →
    ∃ cb', cb.pushAll cs = some cb' ∧ cb'.Wf ∧ cb'.size = cb.size + cs.length
      ∧ cb'.buf.length = cb.buf.length ∧ cb'.contents = cb.contents ++ cs := by
  intro cs
  induction cs with
  | nil =>
    intro cb hwf _
    exact ⟨cb, rfl, hwf, by simp, rfl, by simp⟩
  | cons c rest ih =>
    intro cb hwf hroom
    obtain ⟨hok, hwf', hsz', hlen', hcont'⟩ :=
      CharBuffer.push_spec cb c hwf (by simp at hroom; omega)
    obtain ⟨cb'', h1, h2, h3, h4, h5⟩ := ih (cb.push c).2 hwf' (by simp at hroom ⊢; omega)
    refine ⟨cb'', ?_, h2, ?_, ?_, ?_⟩
    · simp only [CharBuffer.pushAll]
      rcases hp : cb.push c with ⟨res, cbnew⟩
      rw [hp] at hok h1
      simp only at hok h1
      rw [hok]
      exact h1
    · rw [h3, hsz']
      simp
      omega
    · rw [h4, hlen']
    · rw [h5, hcont']
      simp

/-- Popping exactly the buffer's size yields its FIFO contents. -/
theorem CharBuffer.popN_spec : ∀ (n : Nat) (cb : CharBuffer), cb.Wf → cb.size = n →
    (cb.popN n).1 = cb.contents.map some := by
  intro n
  induction n with
  | zero =>
    intro cb _ hsz
    rw [cb.contents_eq_nil hsz]
    rfl
  | succ m ih =>
    intro cb hwf hsz
    obtain ⟨hfst, hwf', hsz', _, hcont⟩ := CharBuffer.pop_spec cb hwf (by omega)
    simp only [CharBuffer.popN]
    rw [hfst, hcont, ih (cb.pop).2 hwf' (by omega)]
    simp

/-- C9: ring buffer FIFO behaviour.  Pushing `k ≤ capacity` elements
into an empty well-formed buffer and then popping `k` times returns
exactly the pushed elements in order; pushing into a full buffer fails
with `NotEnoughSpace` and returns the buffer completely unchanged
(contents, size, cursors); pop and peek on an empty buffer return
nothing. -/
theorem c9_ring_buffer :
    (∀ (cb : CharBuffer) (cs : List Char), cb.Wf → cb.size = 0 → cs.length ≤ cb.capacity →
      ∃ cb', cb.pushAll cs = some cb' ∧ (cb'.popN cs.length).1 = cs.map some)
    ∧ (∀ (cb : CharBuffer) (c : Char), cb.size = cb.capacity →
        cb.push c = (.error (.notEnoughSpace c), cb))
    ∧ (∀ cb : CharBuffer, cb.size = 0 → cb.pop = (none, cb) ∧ cb.peek = none) := by
  refine ⟨?_, ?_, ?_⟩
  · intro cb cs hwf hsz hlen
    simp only [CharBuffer.capacity] at hlen
    obtain ⟨cb', h1, hwf', hsz', _, hcont⟩ :=
      CharBuffer.pushAll_spec cs cb hwf (by omega)
    refine ⟨cb', h1, ?_⟩
    rw [CharBuffer.popN_spec cs.length cb' hwf' (by omega), hcont, cb.contents_eq_nil hsz]
    rfl
  · intro cb c h
    simp [CharBuffer.push, h]
  · intro cb h
    exact ⟨by simp [CharBuffer.pop, h], by simp [CharBuffer.peek, h]⟩

/-- C9 (witness): round trip at capacity 2 with `"xy"`, a failing push
on the resulting full buffer, and pop/peek on a fresh empty buffer. -/
theorem c9_ring_buffer_witness :
    (CharBuffer.popN ⟨['x', 'y'], 0, 0, 2⟩ 2).1 = [some 'x', some 'y']
    ∧ CharBuffer.push ⟨['x', 'y'], 0, 0, 2⟩ 'z'
        = (.error (.notEnoughSpace 'z'), ⟨['x', 'y'], 0, 0, 2⟩)
    ∧ CharBuffer.pop (CharBuffer.new 2) = (none, CharBuffer.new 2)
    ∧ CharBuffer.peek (CharBuffer.new 2) = none := by
  obtain ⟨cb', h1, h2⟩ := c9_ring_buffer.1 (CharBuffer.new 2) ['x', 'y']
    ⟨by decide, by decide, by decide⟩ (by decide) (by decide)
  have hcb : cb' = ⟨['x', 'y'], 0, 0, 2⟩ := by
    have h3 : some cb' = some (⟨['x', 'y'], 0, 0, 2⟩ : CharBuffer) := by
      rw [← h1]
      decide
    exact Option.some.inj h3
  rw [hcb] at h2
  have h4 := c9_ring_buffer.2.1 ⟨['x', 'y'], 0, 0, 2⟩ 'z' (by decide)
  have h5 := c9_ring_buffer.2.2 (CharBuffer.new 2) (by decide)
  exact ⟨by simpa using h2, h4, h5.1, h5.2⟩

end Almora
